import Mathlib

/-!
Verification of the difpipe batched tar pipeline against its source.

Shallow embedding of the Go packages `pkg/core` (exit codes, strategy and
protocol types), `pkg/analyzer` (strategy recommendation, local sampling),
and `pkg/batch` (manifest, bin packing, buffer manager, source worker,
batched-engine dispatcher).  Machine `int64` values are modelled as `Int`
(no realistic input overflows 2^63 in these code paths), `float64` ratio
comparisons as exact rationals, and effectful steps (subprocesses, the
filesystem) as explicit parameters or association lists.
-/

namespace Difpipe

/-! ### pkg/core: strategies, protocols, exit codes -/

/-- `core.Strategy` (src/unnamed/part_002). -/
inductive Strategy where
  | auto | rclone | rsync | tar | proxy | skopeo | restic
deriving DecidableEq, Repr

/-- `core.Protocol` (src/unnamed/part_002). -/
inductive Protocol where
  | local | ssh | s3 | gcs | azure | http | ftp | webdav
deriving DecidableEq, Repr

/-- `core.ErrorCategory` (src/unnamed/part_002). -/
inductive ErrorCategory where
  | retryable | fatal | configuration | auth | resource | user
deriving DecidableEq, Repr

/-- `core.ExitCodeInfo` (src/unnamed/part_002). -/
structure ExitCodeInfo where
  code : Int
  category : ErrorCategory
  description : String
  retryable : Bool
  suggestion : String
deriving DecidableEq, Repr

/-- `core.ExitCodeRegistry` (src/unnamed/part_002 lines 260-373), as an
association list mirroring the Go map literal.  Codes 1 and 42 have named
constants but no registry entry in the source. -/
def ExitCodeRegistry : List (Int × ExitCodeInfo) :=
  [ (0,  ⟨0,  .user, "Operation completed successfully", false, ""⟩),
    (10, ⟨10, .configuration, "Configuration error", false,
          "Check configuration file syntax and required fields"⟩),
    (11, ⟨11, .auth, "Authentication failed", false,
          "Verify credentials and access permissions"⟩),
    (12, ⟨12, .retryable, "Network error", true,
          "Check network connectivity and retry"⟩),
    (20, ⟨20, .fatal, "Source path not found", false,
          "Verify source path exists and is accessible"⟩),
    (21, ⟨21, .fatal, "Destination not writable", false,
          "Check destination permissions and path validity"⟩),
    (22, ⟨22, .auth, "Permission denied", false,
          "Verify user has required permissions"⟩),
    (23, ⟨23, .resource, "Insufficient disk space", false,
          "Free up space at destination or use different location"⟩),
    (30, ⟨30, .retryable, "Transfer failed", true,
          "Retry with checkpoint enabled to resume from failure point"⟩),
    (31, ⟨31, .fatal, "Checksum verification failed", true,
          "Data corruption detected, retry transfer"⟩),
    (32, ⟨32, .retryable, "Partial transfer (some files failed)", true,
          "Review failed files and retry"⟩),
    (40, ⟨40, .configuration, "Transfer engine not found", false,
          "Install required transfer engine (rclone, rsync, etc.)"⟩),
    (41, ⟨41, .configuration, "Protocol not supported", false,
          "Use different strategy or install engine with protocol support"⟩),
    (50, ⟨50, .user, "Operation canceled by user", false, ""⟩),
    (51, ⟨51, .retryable, "Operation timed out", true,
          "Increase timeout or check for hanging processes"⟩),
    (52, ⟨52, .resource, "Quota or rate limit exceeded", true,
          "Wait for quota reset or increase limits"⟩) ]

/-- `core.GetExitCodeInfo` (src/unnamed/part_002 lines 376-387). -/
def GetExitCodeInfo (code : Int) : ExitCodeInfo :=
  match ExitCodeRegistry.lookup code with
  | some info => info
  | none => ⟨code, .fatal, "Unknown error", false, "Check logs for details"⟩

/-- `core.IsRetryable` (src/unnamed/part_002 lines 389-392). -/
def IsRetryable (code : Int) : Bool :=
  (GetExitCodeInfo code).retryable

/-- The 18 exit codes documented in the spec (§6). -/
def documentedExitCodes : List Int :=
  [0, 1, 10, 11, 12, 20, 21, 22, 23, 30, 31, 32, 40, 41, 42, 50, 51, 52]

/-! ### pkg/batch: buffer manager (buffer.go) -/

/-- The reservation accounting of `batch.BufferManager` (buffer.go): its
`maxSize` and the atomic `currentSize` counter.  The on-disk root path does
not enter the accounting. -/
structure BufferState where
  currentSize : Int
  maxSize : Int
deriving DecidableEq, Repr

/-- `batch.NewBufferManager` (buffer.go lines 22-30): counter starts at zero,
`maxSize` is `BufferMaxSizeGB` gigabytes. -/
def NewBufferManager (bufferMaxSizeGB : Int) : BufferState :=
  { currentSize := 0, maxSize := bufferMaxSizeGB * 1024 * 1024 * 1024 }

/-- `batch.BufferManager.ReserveSpace` (buffer.go lines 57-70).  The Go loop
retries a compare-and-swap; in this sequential embedding the swap succeeds on
the first attempt, so the loop reduces to one guarded update. -/
def ReserveSpace (size : Int) (s : BufferState) : Bool × BufferState :=
  if s.currentSize + size > s.maxSize then (false, s)
  else (true, { s with currentSize := s.currentSize + size })

/-- `batch.BufferManager.ReleaseSpace` (buffer.go lines 72-75). -/
def ReleaseSpace (size : Int) (s : BufferState) : BufferState :=
  { s with currentSize := s.currentSize - size }

/-- The counter effect of `batch.BufferManager.Cleanup` (buffer.go lines
117-130): the per-manifest directory is removed and the counter is reset. -/
def CleanupCounter (s : BufferState) : BufferState :=
  { s with currentSize := 0 }

/-- One buffer-manager operation, for reasoning about operation sequences. -/
inductive BufferOp where
  | reserve (size : Int)
  | release (size : Int)
  | cleanup
deriving DecidableEq, Repr

/-- Apply one operation to the buffer accounting state. -/
def applyBufferOp (s : BufferState) : BufferOp → BufferState
  | .reserve n => (ReserveSpace n s).2
  | .release n => ReleaseSpace n s
  | .cleanup => CleanupCounter s

/-- Run a sequence of buffer-manager operations. -/
def runBufferOps (s : BufferState) : List BufferOp → BufferState
  | [] => s
  | op :: rest => runBufferOps (applyBufferOp s op) rest

/-- An operation has a non-negative byte argument. -/
def bufferOpNonneg : BufferOp → Bool
  | .reserve n => decide (0 ≤ n)
  | .release n => decide (0 ≤ n)
  | .cleanup => true

/-! ### pkg/batch: manifest and batches (src/unnamed/part_005) -/

/-- `batch.Batch` (src/unnamed/part_005 lines 29-42).  The `time.Time`
timestamps and the unused checksum field are omitted; sizes and counts are
`int`/`int64` in Go, modelled as `Int`. -/
structure Batch where
  id : Nat
  files : List String
  size : Int
  fileCount : Int
  status : String
  localPath : String
  errMsg : String
deriving DecidableEq, Repr

/-- `batch.Manifest` (src/unnamed/part_005 lines 13-26), timestamps omitted. -/
structure Manifest where
  id : String
  source : String
  destination : String
  totalFiles : Int
  totalSize : Int
  chunkSizeMB : Int
  batches : List Batch
  status : String
deriving DecidableEq, Repr

/-- `batch.NewManifest` (src/unnamed/part_005 lines 75-85).  The Go code
derives `ID` from the wall clock; here it is a parameter. -/
def NewManifest (id source destination : String) (chunkSizeMB : Int) : Manifest :=
  { id := id, source := source, destination := destination,
    totalFiles := 0, totalSize := 0, chunkSizeMB := chunkSizeMB,
    batches := [], status := "pending" }

/-- `batch.Manifest.AddBatch` (src/unnamed/part_005 lines 88-105). -/
def AddBatch (m : Manifest) (files : List String) (size : Int) : Manifest :=
  let batch : Batch :=
    { id := m.batches.length, files := files, size := size,
      fileCount := (files.length : Int), status := "pending",
      localPath := "", errMsg := "" }
  { m with batches := m.batches ++ [batch],
           totalFiles := m.totalFiles + (files.length : Int),
           totalSize := m.totalSize + size }

/-- A manifest built by a sequence of `AddBatch` calls, as the manifest
creator does (manifest_creator.go lines 57-60). -/
def buildManifest (m : Manifest) (calls : List (List String × Int)) : Manifest :=
  calls.foldl (fun acc c => AddBatch acc c.1 c.2) m

/-! ### pkg/batch: bin packing (manifest_creator.go) -/

/-- `batch.FileInfo` (manifest_creator.go lines 12-15). -/
structure FileInfo where
  path : String
  size : Int
deriving DecidableEq, Repr

/-- `batch.batchInfo` (manifest_creator.go lines 141-144). -/
structure BatchInfo where
  files : List String
  size : Int
deriving DecidableEq, Repr

/-- The loop body of `binPackFiles` (manifest_creator.go lines 155-173):
iterate over the files, sealing the current batch when its accumulated size
is positive and adding the next file would exceed the target. -/
def binPackLoop (targetSize : Int) :
    List FileInfo → BatchInfo → List BatchInfo → List BatchInfo
  | [], current, batches =>
      if current.files.length > 0 then batches ++ [current] else batches
  | file :: rest, current, batches =>
      if current.size > 0 ∧ current.size + file.size > targetSize then
        binPackLoop targetSize rest ⟨[file.path], file.size⟩ (batches ++ [current])
      else
        binPackLoop targetSize rest
          ⟨current.files ++ [file.path], current.size + file.size⟩ batches

/-- `batch.ManifestCreator.binPackFiles` (manifest_creator.go lines 146-176):
`targetSize` is `ChunkSizeMB` megabytes. -/
def binPackFiles (chunkSizeMB : Int) (files : List FileInfo) : List BatchInfo :=
  binPackLoop (chunkSizeMB * 1024 * 1024) files ⟨[], 0⟩ []

/-- Sum of the sizes of a segment of files. -/
def segSize (s : List FileInfo) : Int :=
  (s.map (fun f => f.size)).sum

/-- Size of the first file of a segment (0 when empty). -/
def headSize : List FileInfo → Int
  | [] => 0
  | f :: _ => f.size

/-- The same loop as `binPackLoop`, but keeping whole `FileInfo` segments so
that the packing can be compared with the enumeration sequence. -/
def binPackSegsLoop (targetSize : Int) :
    List FileInfo → List FileInfo → List (List FileInfo) → List (List FileInfo)
  | [], current, segs =>
      if current.length > 0 then segs ++ [current] else segs
  | file :: rest, current, segs =>
      if segSize current > 0 ∧ segSize current + file.size > targetSize then
        binPackSegsLoop targetSize rest [file] (segs ++ [current])
      else
        binPackSegsLoop targetSize rest (current ++ [file]) segs

/-- Segment view of the bin packing at a given byte target. -/
def binPackSegs (targetSize : Int) (files : List FileInfo) : List (List FileInfo) :=
  binPackSegsLoop targetSize files [] []

/-- The batch a segment of files denotes. -/
def segToBatch (s : List FileInfo) : BatchInfo :=
  ⟨s.map (fun f => f.path), segSize s⟩

/-- No internal cut point of a segment would have triggered the seal: for
every split of the segment into a good prefix and a next file, the loop's
seal guard was false there. -/
def withinOK (targetSize : Int) (s : List FileInfo) : Prop :=
  ∀ k, 0 < k → k < s.length →
    segSize (s.take k) ≤ 0 ∨ segSize (s.take k) + headSize (s.drop k) ≤ targetSize

/-- Consecutive sealed batches: each seal happened because the next file
would not fit. -/
def consecOK (targetSize : Int) : List (List FileInfo) → Prop
  | s1 :: s2 :: rest => segSize s1 + headSize s2 > targetSize ∧ consecOK targetSize (s2 :: rest)
  | _ => True

/-- `batch.ManifestCreator.CreateManifest` (manifest_creator.go lines 34-63)
after location parsing and enumeration: the enumeration result is passed in,
since `find`/SSH are effectful.  Zero enumerated files is an error in the
source. -/
def CreateManifest (id source destination : String) (chunkSizeMB : Int)
    (files : List FileInfo) : Except String Manifest :=
  if files.length = 0 then .error "no files found at source"
  else
    .ok (buildManifest (NewManifest id source destination chunkSizeMB)
          ((binPackFiles chunkSizeMB files).map (fun b => (b.files, b.size))))

/-! ### pkg/analyzer (src/unnamed/part_008) -/

/-- The threshold fields of `analyzer.FileAnalyzer` (src/unnamed/part_008
lines 15-23).  The `float64` percentages are modelled as exact rationals. -/
structure FileAnalyzer where
  smallFileThreshold : Int
  largeFileThreshold : Int
  manyFilesCount : Int
  smallFilePercent : ℚ
  largeFilePercent : ℚ
  fewFilesCount : Int
  maxSampleSize : Int
deriving DecidableEq, Repr

/-- `analyzer.New` (src/unnamed/part_008 lines 26-36). -/
def analyzerNew : FileAnalyzer :=
  { smallFileThreshold := 10 * 1024,
    largeFileThreshold := 100 * 1024 * 1024,
    manyFilesCount := 1000,
    smallFilePercent := 80,
    largeFilePercent := 50,
    fewFilesCount := 10,
    maxSampleSize := 10000 }

/-- The count fields of `core.FileAnalysis` (src/unnamed/part_002 lines
107-121) that the recommendation reads. -/
structure FileAnalysisCounts where
  totalSize : Int
  totalFiles : Int
  smallFiles : Int
  mediumFiles : Int
  largeFiles : Int
deriving DecidableEq, Repr

/-- `analyzer.detectProtocol` (src/unnamed/part_008 lines 268-286). -/
def detectProtocol (path : String) : Protocol :=
  if path.startsWith "s3://" then .s3
  else if path.startsWith "gs://" ∨ path.startsWith "gcs://" then .gcs
  else if path.startsWith "azure://" ∨ path.startsWith "wasb://" then .azure
  else if path.startsWith "http://" ∨ path.startsWith "https://" then .http
  else if path.startsWith "ftp://" ∨ path.startsWith "ftps://" then .ftp
  else if path.contains '@' ∧ path.contains ':' then .ssh
  else .local

/-- `analyzer.isLocalPath` (src/unnamed/part_008 lines 289-292). -/
def isLocalPath (path : String) : Bool :=
  detectProtocol path = .local

/-- `analyzer.FileAnalyzer.recommendStrategy` (src/unnamed/part_008 lines
177-197).  The two `float64` ratio comparisons `small/total*100 > P` and
`large/total*100 > P` are modelled as the same comparisons over `ℚ`. -/
def recommendStrategy (a : FileAnalyzer) (an : FileAnalysisCounts) : Strategy :=
  if an.totalFiles < a.fewFilesCount then .rsync
  else if (an.smallFiles : ℚ) / (an.totalFiles : ℚ) * 100 > a.smallFilePercent
          ∧ an.totalFiles > a.manyFilesCount then .tar
  else if (an.largeFiles : ℚ) / (an.totalFiles : ℚ) * 100 > a.largeFilePercent then .rsync
  else .rclone

/-- The strategy decision of `analyzer.FileAnalyzer.AnalyzeTransfer`
(src/unnamed/part_008 lines 240-265) composed with `Analyze` (lines 51-86):
proxy for SSH-to-SSH, rclone for a non-local source, otherwise the local
counts (passed in, since the walk is effectful) feed `recommendStrategy`. -/
def analyzeTransferStrategy (a : FileAnalyzer) (source destination : String)
    (counts : FileAnalysisCounts) : Strategy :=
  if detectProtocol source = .ssh ∧ detectProtocol destination = .ssh then .proxy
  else if ¬ (isLocalPath source = true) then .rclone
  else recommendStrategy a counts

/-- Modelled from the spec: the recommendation rule list of §4.3, first
applicable rule wins, ratios written with cross multiplication. -/
def specRecommendation (a : FileAnalyzer) (source destination : String)
    (counts : FileAnalysisCounts) : Strategy :=
  if detectProtocol source = .ssh ∧ detectProtocol destination = .ssh then .proxy
  else if detectProtocol source ≠ .local then .rclone
  else if counts.totalFiles < a.fewFilesCount then .rsync
  else if counts.totalFiles > a.manyFilesCount
          ∧ (counts.smallFiles : ℚ) * 100 > a.smallFilePercent * (counts.totalFiles : ℚ) then .tar
  else if (counts.largeFiles : ℚ) * 100 > a.largeFilePercent * (counts.totalFiles : ℚ) then .rsync
  else .rclone

/-- The sampling interval of `analyzer.FileAnalyzer.analyzeLocal`
(src/unnamed/part_008 lines 108-111): Go integer division, truncating. -/
def sampleIntervalOf (maxSampleSize fileCount : Int) : Int :=
  if fileCount > maxSampleSize then Int.tdiv fileCount maxSampleSize else 1

/-- One accepted file of the `analyzeLocal` walk (src/unnamed/part_008 lines
143-161): totals are scaled by the interval when sampling, the size-bucket
counters are incremented by one. -/
def analyzeStep (a : FileAnalyzer) (interval : Int)
    (acc : FileAnalysisCounts) (size : Int) : FileAnalysisCounts :=
  let acc :=
    if interval > 1 then
      { acc with totalSize := acc.totalSize + size * interval,
                 totalFiles := acc.totalFiles + interval }
    else
      { acc with totalSize := acc.totalSize + size,
                 totalFiles := acc.totalFiles + 1 }
  if size < a.smallFileThreshold then { acc with smallFiles := acc.smallFiles + 1 }
  else if size > a.largeFileThreshold then { acc with largeFiles := acc.largeFiles + 1 }
  else { acc with mediumFiles := acc.mediumFiles + 1 }

/-- The sampling walk of `analyzeLocal` (src/unnamed/part_008 lines 113-171)
over the file sizes in walk order, with the 1-based `currentFile` counter. -/
def analyzeLoop (a : FileAnalyzer) (interval : Int) :
    List Int → Int → FileAnalysisCounts → FileAnalysisCounts
  | [], _, acc => acc
  | size :: rest, currentFile, acc =>
    if interval > 1 ∧ (currentFile + 1) % interval ≠ 0 then
      analyzeLoop a interval rest (currentFile + 1) acc
    else
      analyzeLoop a interval rest (currentFile + 1) (analyzeStep a interval acc size)

/-- `analyzer.FileAnalyzer.analyzeLocal` (src/unnamed/part_008 lines 89-174)
as a pure function of the regular-file sizes in walk order: first pass counts
the files, second pass samples and accumulates. -/
def analyzeLocal (a : FileAnalyzer) (sizes : List Int) : FileAnalysisCounts :=
  let interval := sampleIntervalOf a.maxSampleSize (sizes.length : Int)
  analyzeLoop a interval sizes 0 ⟨0, 0, 0, 0, 0⟩

/-- The files kept by sampling: every element whose 1-based position is
divisible by the interval. -/
def sampledEvery (k : Int) : List Int → Int → List Int
  | [], _ => []
  | size :: rest, currentFile =>
    if (currentFile + 1) % k = 0 then size :: sampledEvery k rest (currentFile + 1)
    else sampledEvery k rest (currentFile + 1)

/-- Modelled from the spec: the claim's reading of the down-sampling — the
interval is `⌈total/max⌉` and all accumulators, the size buckets included,
are multiplied by it. -/
def analyzeLocalClaim (a : FileAnalyzer) (sizes : List Int) : FileAnalysisCounts :=
  let total : Int := sizes.length
  if total > a.maxSampleSize ∧ 0 < a.maxSampleSize then
    -- ceiling division: for `0 < m ≤ t` this is exactly `⌈t/m⌉`
    let k : Int := (total + a.maxSampleSize - 1) / a.maxSampleSize
    let sampled := sampledEvery k sizes 0
    { totalSize := k * sampled.sum,
      totalFiles := k * sampled.length,
      smallFiles := k * (sampled.filter (fun s => s < a.smallFileThreshold)).length,
      largeFiles := k * (sampled.filter (fun s =>
        ¬ s < a.smallFileThreshold ∧ s > a.largeFileThreshold)).length,
      mediumFiles := k * (sampled.filter (fun s =>
        ¬ s < a.smallFileThreshold ∧ ¬ s > a.largeFileThreshold)).length }
  else
    { totalSize := sizes.sum,
      totalFiles := sizes.length,
      smallFiles := (sizes.filter (fun s => s < a.smallFileThreshold)).length,
      largeFiles := (sizes.filter (fun s =>
        ¬ s < a.smallFileThreshold ∧ s > a.largeFileThreshold)).length,
      mediumFiles := (sizes.filter (fun s =>
        ¬ s < a.smallFileThreshold ∧ ¬ s > a.largeFileThreshold)).length }

/-! ### pkg/batch: location parsing (manifest_creator.go lines 178-204) -/

/-- First index of a character in a character list (`strings.Index`). -/
def idxOfChar (c : Char) : List Char → Option Nat
  | [] => none
  | x :: rest =>
    if x = c then some 0
    else match idxOfChar c rest with
      | some i => some (i + 1)
      | none => none

/-- `batch.ManifestCreator.parseLocation` (manifest_creator.go lines
178-204), over character lists.  The Go function declares an `error` result
but every branch returns `nil`; the `Except` mirrors the signature.  Returns
`(host, path)`; an empty host means local. -/
def parseLocation (location : List Char) : Except String (List Char × List Char) :=
  match idxOfChar '@' location, idxOfChar ':' location with
  | some atIndex, some colonIndex =>
    if colonIndex > atIndex then
      .ok ((location.drop (atIndex + 1)).take (colonIndex - (atIndex + 1)),
           location.drop (colonIndex + 1))
    else
      parseLocationRest location
  | _, _ => parseLocationRest location
where
  /-- The `host:path` and local fallthrough branches (lines 192-203). -/
  parseLocationRest (location : List Char) : Except String (List Char × List Char) :=
    match idxOfChar ':' location with
    | some colonIndex =>
      if location.head? ≠ some '/' then
        .ok (location.take colonIndex, location.drop (colonIndex + 1))
      else
        .ok ([], location)
    | none => .ok ([], location)

/-! ### pkg/batch: source worker (source_worker.go) -/

/-- Filesystem contents relevant to the worker: archive path to byte
length. -/
abbrev FsMap := List (String × Int)

/-- Zero-padded five-digit decimal, for `fmt.Sprintf "batch_%05d.tar.gz"`. -/
def zeroPad5 (n : Nat) : String :=
  let s := toString n
  String.mk (List.replicate (5 - s.length) '0') ++ s

/-- `batch.BufferManager.GetBatchPath` (buffer.go lines 51-53). -/
def GetBatchPath (bufferPath manifestID : String) (batchID : Nat) : String :=
  bufferPath ++ "/" ++ manifestID ++ "/batch_" ++ zeroPad5 batchID ++ ".tar.gz"

/-- `batch.SourceWorkerPool.createTarArchive` (source_worker.go lines
170-232).  The tar subprocess is external: its outcome is passed in as
`none` (non-zero exit) or `some n` (an archive of `n` bytes written to
`outputPath`, which the subsequent stat observes).  On a size mismatch the
reservation is reconciled — the `ReserveSpace` result is discarded exactly as
in the source — and `batch.Size` is updated. -/
def createTarArchive (bm : BufferState) (fs : FsMap) (batch : Batch)
    (outputPath : String) (tarOutcome : Option Int) :
    Except String (BufferState × FsMap × Batch) :=
  match tarOutcome with
  | none => .error "tar failed"
  | some actualLen =>
    let fs : FsMap := (outputPath, actualLen) :: fs
    if actualLen ≠ batch.size then
      let diff := actualLen - batch.size
      let bm := if diff > 0 then (ReserveSpace diff bm).2 else ReleaseSpace (-diff) bm
      .ok (bm, fs, { batch with size := actualLen })
    else
      .ok (bm, fs, batch)

/-- `batch.SourceWorkerPool.processBatch` (source_worker.go lines 98-141).
The reserve retry loop either succeeds or is interrupted by the stop channel;
a first-try failure is modelled as the interrupted path.  The temporary file
list is not modelled. -/
def processBatch (manifestID bufferPath : String) (bm : BufferState) (fs : FsMap)
    (batch : Batch) (tarOutcome : Option Int) :
    Except String (BufferState × FsMap × Batch) :=
  let batch := { batch with status := "downloading" }
  let batchPath := GetBatchPath bufferPath manifestID batch.id
  match ReserveSpace batch.size bm with
  | (false, _) => .error "stopped while waiting for buffer space"
  | (true, bm) =>
    match createTarArchive bm fs batch batchPath tarOutcome with
    | .error e => .error ("create tar: " ++ e)
    | .ok (bm, fs, batch) =>
      .ok (bm, fs, { batch with localPath := batchPath, status := "buffered" })

/-! ### pkg/batch: dispatcher (src/unnamed/part_006, coordinateTransfer) -/

/-- Update a map at one index. -/
def upd {α : Type} (f : Nat → α) (i : Nat) (v : α) : Nat → α :=
  fun j => if j = i then v else f j

/-- The coordination state of one `coordinateTransfer` run over batches
`0..n-1`: the per-batch status strings, the mutex-guarded `enqueuedToDest`
set, the destination pool's queue, plus two history variables — whether a
batch ever reached `buffered`, and how often it was enqueued to the
destination pool. -/
structure DispatchState where
  status : Nat → String
  dispatched : Nat → Bool
  destQueue : List Nat
  wasBuffered : Nat → Bool
  enqueueCount : Nat → Nat

/-- The initial state: every batch `pending` (src/unnamed/part_005 line 97),
`enqueuedToDest` empty (src/unnamed/part_006 line 146). -/
def initDispatch : DispatchState :=
  { status := fun _ => "pending", dispatched := fun _ => false,
    destQueue := [], wasBuffered := fun _ => false, enqueueCount := fun _ => 0 }

/-- One interleaved step of the run: source workers move a batch through
`pending → downloading → buffered/failed` (source_worker.go), the
destination poller dispatches a `buffered` batch not yet in the set
(src/unnamed/part_006 lines 163-172), destination workers dequeue and move
`uploading → completed/failed` (dest_worker.go). -/
inductive DStep (n : Nat) : DispatchState → DispatchState → Prop
  | srcStart {s : DispatchState} (i : Nat) (h : i < n)
      (hs : s.status i = "pending") :
      DStep n s { s with status := upd s.status i "downloading" }
  | srcBuffer {s : DispatchState} (i : Nat) (h : i < n)
      (hs : s.status i = "downloading") :
      DStep n s { s with status := upd s.status i "buffered",
                         wasBuffered := upd s.wasBuffered i true }
  | srcFail {s : DispatchState} (i : Nat) (h : i < n)
      (hs : s.status i = "downloading") :
      DStep n s { s with status := upd s.status i "failed" }
  | pollDispatch {s : DispatchState} (i : Nat) (h : i < n)
      (hs : s.status i = "buffered") (hd : s.dispatched i = false) :
      DStep n s { s with dispatched := upd s.dispatched i true,
                         destQueue := s.destQueue ++ [i],
                         enqueueCount := upd s.enqueueCount i (s.enqueueCount i + 1) }
  | destStart {s : DispatchState} (i : Nat) (rest : List Nat)
      (hq : s.destQueue = i :: rest) :
      DStep n s { s with status := upd s.status i "uploading", destQueue := rest }
  | destComplete {s : DispatchState} (i : Nat) (h : i < n)
      (hs : s.status i = "uploading") :
      DStep n s { s with status := upd s.status i "completed" }
  | destFail {s : DispatchState} (i : Nat) (h : i < n)
      (hs : s.status i = "uploading") :
      DStep n s { s with status := upd s.status i "failed" }

/-- States reachable in one run. -/
def DReach (n : Nat) : DispatchState → Prop :=
  Relation.ReflTransGen (DStep n) initDispatch

/-! ### Invariants used in the proofs -/

/-- The conservation invariant `AddBatch` maintains. -/
def ManifestInv (m : Manifest) : Prop :=
  m.totalFiles = (m.batches.map (fun b => b.fileCount)).sum
  ∧ m.totalSize = (m.batches.map (fun b => b.size)).sum
  ∧ m.batches.map (fun b => b.id) = List.range m.batches.length

/-- The dispatcher invariant: the enqueue count mirrors the dispatched set,
queued or uploading batches were dispatched, a dispatched batch was buffered
at some point, a batch that reached `buffered` can only be in a
post-buffered status, and a buffered-then-terminal batch was dispatched. -/
def DInv (s : DispatchState) : Prop :=
  ∀ i,
    s.enqueueCount i = (if s.dispatched i then 1 else 0)
    ∧ (s.dispatched i = true → s.wasBuffered i = true)
    ∧ (i ∈ s.destQueue → s.dispatched i = true)
    ∧ (s.status i = "uploading" → s.dispatched i = true)
    ∧ (s.status i = "buffered" → s.wasBuffered i = true)
    ∧ (s.wasBuffered i = true →
        s.status i = "buffered" ∨ s.status i = "uploading"
        ∨ s.status i = "completed" ∨ s.status i = "failed")
    ∧ (s.wasBuffered i = true →
        (s.status i = "completed" ∨ s.status i = "failed") →
        s.dispatched i = true)

/-! ## Theorems -/

/-! ### C10: retryable exit codes -/

/-- C10 counterexample: the claim says `IsRetryable 31` (checksum-mismatch)
is false, but the registry entry for 31 carries `Retryable: true`, so
`IsRetryable 31 = true`. -/
theorem isRetryable_31_counterexample :
    IsRetryable 31 = true ∧ (31 : Int) ∈ documentedExitCodes := by decide

/-- C10 amended: among the documented exit codes, `IsRetryable` returns true
exactly for 12, 30, 31, 32, 51 and 52 — the spec's retryable set plus 31 —
and false for every other documented code, 1 and 42 via the unknown-code
default. -/
theorem isRetryable_amended :
    (documentedExitCodes.all fun c =>
      IsRetryable c == decide (c = 12 ∨ c = 30 ∨ c = 31 ∨ c = 32 ∨ c = 51 ∨ c = 52)) = true := by
  decide

/-! ### C8: empty source -/

/-- C8 counterexample: on an empty enumeration the manifest creator does not
emit a zero-batch manifest; it returns the error `no files found at source`
(manifest_creator.go lines 47-49), so the transfer fails rather than
completing successfully. -/
theorem createManifest_empty_counterexample :
    CreateManifest "m" "src" "dst" 50 [] = .error "no files found at source" := rfl

/-- C8 amended: when the source enumeration yields zero files,
`CreateManifest` rejects the transfer with the error
`no files found at source`; no manifest is produced and the enclosing
`Transfer` returns this error instead of completing. -/
theorem createManifest_empty_amended :
    ∀ (id source destination : String) (chunkSizeMB : Int),
      CreateManifest id source destination chunkSizeMB [] =
        .error "no files found at source" := by
  intro id source destination chunkSizeMB
  rfl

/-! ### C3: manifest conservation -/

theorem manifestInv_new (id source destination : String) (chunkSizeMB : Int) :
    ManifestInv (NewManifest id source destination chunkSizeMB) := by
  refine ⟨rfl, rfl, rfl⟩

theorem manifestInv_addBatch {m : Manifest} (hm : ManifestInv m)
    (files : List String) (size : Int) : ManifestInv (AddBatch m files size) := by
  obtain ⟨h1, h2, h3⟩ := hm
  refine ⟨?_, ?_, ?_⟩
  · simp [AddBatch, h1]
  · simp [AddBatch, h2]
  · simp only [AddBatch, List.map_append, List.length_append, List.map_cons, List.map_nil]
    rw [h3]
    simp [List.range_succ]

theorem manifestInv_buildManifest {m : Manifest} (hm : ManifestInv m)
    (calls : List (List String × Int)) : ManifestInv (buildManifest m calls) := by
  induction calls generalizing m with
  | nil => exact hm
  | cons c rest ih => exact ih (manifestInv_addBatch hm c.1 c.2)

/-- C3: for every manifest built by a sequence of `AddBatch` calls starting
from `NewManifest`, `totalFiles` is the sum of the batches' `fileCount`,
`totalSize` is the sum of the declared `size`, and the batch ids are dense
and 0-based (the id sequence is `0, 1, …, n-1`). -/
theorem manifest_conservation (id source destination : String) (chunkSizeMB : Int)
    (calls : List (List String × Int)) :
    (buildManifest (NewManifest id source destination chunkSizeMB) calls).totalFiles =
        ((buildManifest (NewManifest id source destination chunkSizeMB) calls).batches.map
          (fun b => b.fileCount)).sum
    ∧ (buildManifest (NewManifest id source destination chunkSizeMB) calls).totalSize =
        ((buildManifest (NewManifest id source destination chunkSizeMB) calls).batches.map
          (fun b => b.size)).sum
    ∧ (buildManifest (NewManifest id source destination chunkSizeMB) calls).batches.map
          (fun b => b.id) =
        List.range (buildManifest (NewManifest id source destination chunkSizeMB)
          calls).batches.length :=
  manifestInv_buildManifest (manifestInv_new id source destination chunkSizeMB) calls

/-! ### C4: buffer reservation bound -/

theorem runBufferOps_maxSize (ops : List BufferOp) (s : BufferState) :
    (runBufferOps s ops).maxSize = s.maxSize := by
  induction ops generalizing s with
  | nil => rfl
  | cons op rest ih =>
    rw [runBufferOps, ih]
    cases op with
    | reserve n =>
      show ((ReserveSpace n s).2).maxSize = s.maxSize
      unfold ReserveSpace
      split <;> rfl
    | release n => rfl
    | cleanup => rfl

theorem runBufferOps_bound (ops : List BufferOp) (s : BufferState)
    (hmax : 0 ≤ s.maxSize) (hcur : s.currentSize ≤ s.maxSize)
    (hops : ∀ op ∈ ops, bufferOpNonneg op = true) :
    (runBufferOps s ops).currentSize ≤ (runBufferOps s ops).maxSize := by
  induction ops generalizing s with
  | nil => exact hcur
  | cons op rest ih =>
    rw [runBufferOps]
    have hrest : ∀ o ∈ rest, bufferOpNonneg o = true :=
      fun o ho => hops o (List.mem_cons_of_mem op ho)
    have hop := hops op (List.mem_cons_self op rest)
    have hmax2 : (applyBufferOp s op).maxSize = s.maxSize := by
      cases op with
      | reserve n =>
        show ((ReserveSpace n s).2).maxSize = s.maxSize
        unfold ReserveSpace
        split <;> rfl
      | release n => rfl
      | cleanup => rfl
    apply ih
    · rw [hmax2]; exact hmax
    · rw [hmax2]
      cases op with
      | reserve n =>
        show ((ReserveSpace n s).2).currentSize ≤ s.maxSize
        unfold ReserveSpace
        split
        · exact hcur
        · next h => simp only [not_lt] at h; simpa using h
      | release n =>
        have hn : (0 : Int) ≤ n := by simpa [bufferOpNonneg] using hop
        show s.currentSize - n ≤ s.maxSize
        omega
      | cleanup =>
        show (0 : Int) ≤ s.maxSize
        exact hmax
    · exact hrest

/-- C4: `ReserveSpace` is a single guarded compare-and-swap — it succeeds
and adds `n` to the counter iff `current + n ≤ max`, leaving the state
unchanged otherwise (it never blocks, being a total function of the state) —
and consequently, starting from `NewBufferManager` with a non-negative
configured size, after any sequence of `ReserveSpace`/`ReleaseSpace` (with
non-negative arguments) and `Cleanup` operations, and at every point of that
sequence, `currentSize ≤ maxSize`. -/
theorem buffer_reservation_bound :
    (∀ (n : Int) (s : BufferState),
      ((ReserveSpace n s).1 = true ↔ s.currentSize + n ≤ s.maxSize)
      ∧ ((ReserveSpace n s).1 = true →
          (ReserveSpace n s).2.currentSize = s.currentSize + n
          ∧ (ReserveSpace n s).2.maxSize = s.maxSize)
      ∧ ((ReserveSpace n s).1 = false → (ReserveSpace n s).2 = s))
    ∧ (∀ (gb : Int) (ops pre suf : List BufferOp), 0 ≤ gb →
        (∀ op ∈ ops, bufferOpNonneg op = true) → ops = pre ++ suf →
        (runBufferOps (NewBufferManager gb) pre).currentSize ≤
          (NewBufferManager gb).maxSize) := by
  constructor
  · intro n s
    unfold ReserveSpace
    refine ⟨?_, ?_, ?_⟩
    · split
      · next h => simp; omega
      · next h => simp; omega
    · split
      · simp
      · intro _; exact ⟨rfl, rfl⟩
    · split
      · intro _; rfl
      · simp
  · intro gb ops pre suf hgb hops heq
    have hpre : ∀ op ∈ pre, bufferOpNonneg op = true := by
      intro op hop
      exact hops op (heq ▸ List.mem_append_left suf hop)
    have hmax : 0 ≤ (NewBufferManager gb).maxSize := by
      show (0 : Int) ≤ gb * 1024 * 1024 * 1024
      positivity
    have := runBufferOps_bound pre (NewBufferManager gb) hmax hmax hpre
    rwa [runBufferOps_maxSize] at this

/-- C4 witness: the theorem applied at a 1 GB buffer and the concrete
sequence reserve 5, release 3. -/
theorem buffer_reservation_bound_witness :
    ((ReserveSpace 5 (NewBufferManager 1)).1 = true ↔
      (NewBufferManager 1).currentSize + 5 ≤ (NewBufferManager 1).maxSize)
    ∧ (runBufferOps (NewBufferManager 1)
        [BufferOp.reserve 5, BufferOp.release 3]).currentSize ≤
        (NewBufferManager 1).maxSize :=
  ⟨(buffer_reservation_bound.1 5 (NewBufferManager 1)).1,
   buffer_reservation_bound.2 1 [BufferOp.reserve 5, BufferOp.release 3]
     [BufferOp.reserve 5, BufferOp.release 3] [] (by decide) (by decide) rfl⟩

/-! ### C5: strategy recommendation rule order -/

/-- C5: the strategy decision equals the spec's ordered rule list —
SSH-to-SSH proxy first, then rclone for a remote source, then the
few-files, many-small, mostly-large and default rules — whenever the
few-files threshold is positive (default 10), which keeps the ratio
denominators nonzero. -/
theorem strategy_rule_order (a : FileAnalyzer) (source destination : String)
    (counts : FileAnalysisCounts) (hfew : 0 < a.fewFilesCount) :
    analyzeTransferStrategy a source destination counts =
      specRecommendation a source destination counts := by
  unfold analyzeTransferStrategy specRecommendation
  by_cases h1 : detectProtocol source = .ssh ∧ detectProtocol destination = .ssh
  · simp [h1]
  · rw [if_neg h1, if_neg h1]
    by_cases h2 : detectProtocol source = .local
    · rw [if_neg (by simp [isLocalPath, h2]), if_neg (by simp [h2])]
      by_cases h3 : counts.totalFiles < a.fewFilesCount
      · simp [recommendStrategy, h3]
      · have htpos : 0 < counts.totalFiles := by omega
        have htq : (0 : ℚ) < (counts.totalFiles : ℚ) := by exact_mod_cast htpos
        have hsm : ((counts.smallFiles : ℚ) / (counts.totalFiles : ℚ) * 100
              > a.smallFilePercent)
            ↔ ((counts.smallFiles : ℚ) * 100
              > a.smallFilePercent * (counts.totalFiles : ℚ)) := by
          rw [div_mul_eq_mul_div, gt_iff_lt, lt_div_iff₀ htq, gt_iff_lt]
        have hlg : ((counts.largeFiles : ℚ) / (counts.totalFiles : ℚ) * 100
              > a.largeFilePercent)
            ↔ ((counts.largeFiles : ℚ) * 100
              > a.largeFilePercent * (counts.totalFiles : ℚ)) := by
          rw [div_mul_eq_mul_div, gt_iff_lt, lt_div_iff₀ htq, gt_iff_lt]
        have htar : ((counts.smallFiles : ℚ) / (counts.totalFiles : ℚ) * 100
              > a.smallFilePercent ∧ counts.totalFiles > a.manyFilesCount)
            ↔ (counts.totalFiles > a.manyFilesCount
              ∧ (counts.smallFiles : ℚ) * 100
                > a.smallFilePercent * (counts.totalFiles : ℚ)) := by
          rw [hsm]; exact and_comm
        simp only [recommendStrategy, if_neg h3, htar, hlg]
    · rw [if_pos (by simp [isLocalPath, h2]), if_pos (by simp [h2])]

/-- C5 witness: the theorem at the default thresholds on a concrete local
source, SSH destination and counts. -/
theorem strategy_rule_order_witness :
    analyzeTransferStrategy analyzerNew "/data/src" "u@host:/dst" ⟨1500, 15, 3, 11, 1⟩ =
      specRecommendation analyzerNew "/data/src" "u@host:/dst" ⟨1500, 15, 3, 11, 1⟩ :=
  strategy_rule_order analyzerNew "/data/src" "u@host:/dst" ⟨1500, 15, 3, 11, 1⟩ (by decide)

/-! ### C9: location parser -/

theorem idxOfChar_cons_self (c : Char) (l : List Char) :
    idxOfChar c (c :: l) = some 0 := by
  simp [idxOfChar]

theorem idxOfChar_append_of_not_mem {c : Char} {l1 : List Char} (h : c ∉ l1)
    (l2 : List Char) :
    idxOfChar c (l1 ++ l2) = (idxOfChar c l2).map (fun i => i + l1.length) := by
  induction l1 with
  | nil => cases h2 : idxOfChar c l2 <;> simp [h2]
  | cons x rest ih =>
    have hx : x ≠ c := fun hxc => h (hxc ▸ List.mem_cons_self x rest)
    have hr : c ∉ rest := fun hc => h (List.mem_cons_of_mem x hc)
    rw [List.cons_append, idxOfChar, if_neg hx, ih hr]
    cases h2 : idxOfChar c l2 with
    | none => simp
    | some v => simp; omega

theorem idxOfChar_eq_none_of_not_mem {c : Char} {l : List Char} (h : c ∉ l) :
    idxOfChar c l = none := by
  induction l with
  | nil => rfl
  | cons x rest ih =>
    have hx : x ≠ c := fun hxc => h (hxc ▸ List.mem_cons_self x rest)
    have hr : c ∉ rest := fun hc => h (List.mem_cons_of_mem x hc)
    rw [idxOfChar, if_neg hx, ih hr]

/-- C9 counterexample: `":p"` is none of the three accepted shapes (its host
part is empty), yet the parser does not reject it — no branch of
`parseLocation` ever returns an error; here it returns host `""` and path
`"p"`, which downstream code treats as local. -/
theorem parseLocation_counterexample :
    parseLocation [':', 'p'] = .ok ([], ['p']) := rfl

theorem parseLocationRest_hostpath (host path : List Char) (hh : host ≠ [])
    (hch : ':' ∉ host) (hhead : host.head? ≠ some '/') :
    parseLocation.parseLocationRest (host ++ ':' :: path) = .ok (host, path) := by
  have hcolon : idxOfChar ':' (host ++ ':' :: path) = some host.length := by
    rw [idxOfChar_append_of_not_mem hch, idxOfChar_cons_self]
    simp
  obtain ⟨x, xs, rfl⟩ := List.exists_cons_of_ne_nil hh
  rw [parseLocation.parseLocationRest, hcolon]
  dsimp only
  rw [if_pos (by simpa using hhead)]
  have htake : ((x :: xs) ++ ':' :: path).take (x :: xs).length = x :: xs :=
    List.take_left (x :: xs) (':' :: path)
  have hdrop : ((x :: xs) ++ ':' :: path).drop ((x :: xs).length + 1) = path := by
    have heq : (x :: xs) ++ ':' :: path = ((x :: xs) ++ [':']) ++ path := by simp
    rw [heq,
      show (x :: xs).length + 1 = ((x :: xs) ++ [':']).length from by simp,
      List.drop_left]
  rw [htake, hdrop]

theorem parseLocationRest_no_colon (path : List Char) (hcp : ':' ∉ path) :
    parseLocation.parseLocationRest path = .ok ([], path) := by
  rw [parseLocation.parseLocationRest, idxOfChar_eq_none_of_not_mem hcp]

theorem parseLocationRest_slash (path : List Char) (hhead : path.head? = some '/') :
    parseLocation.parseLocationRest path = .ok ([], path) := by
  rw [parseLocation.parseLocationRest]
  cases hc : idxOfChar ':' path with
  | none => rfl
  | some colonIndex =>
    dsimp only
    rw [if_neg (by simp [hhead])]

/-- C9 amended: the parser distinguishes the three shapes as described —
`user@host:path` (first `@` before first `:`), `host:path` (leading
character not `/`), plain `path` otherwise — but performs no validation and
never returns an error: every input parses, and inputs outside the three
shapes are silently folded into one of them instead of being rejected. -/
theorem parseLocation_shapes (user host path loc : List Char) :
    (user ≠ [] → '@' ∉ user → ':' ∉ user → ':' ∉ host →
      parseLocation (user ++ '@' :: (host ++ ':' :: path)) = .ok (host, path))
    ∧ (host ≠ [] → '@' ∉ host → ':' ∉ host → host.head? ≠ some '/' →
        parseLocation (host ++ ':' :: path) = .ok (host, path))
    ∧ (':' ∉ path → parseLocation path = .ok ([], path))
    ∧ (path.head? = some '/' → '@' ∉ path → parseLocation path = .ok ([], path))
    ∧ (∃ h p, parseLocation loc = .ok (h, p)) := by
  refine ⟨?_, ?_, ?_, ?_, ?_⟩
  · intro _ hau hcu hch
    have hat : idxOfChar '@' (user ++ '@' :: (host ++ ':' :: path)) = some user.length := by
      rw [idxOfChar_append_of_not_mem hau, idxOfChar_cons_self]
      simp
    have hnm : ':' ∉ user ++ '@' :: host := by
      simp only [List.mem_append, List.mem_cons]
      push_neg
      exact ⟨hcu, by decide, hch⟩
    have hcolon : idxOfChar ':' (user ++ '@' :: (host ++ ':' :: path)) =
        some (user.length + 1 + host.length) := by
      have heq : user ++ '@' :: (host ++ ':' :: path) =
          (user ++ '@' :: host) ++ ':' :: path := by simp
      rw [heq, idxOfChar_append_of_not_mem hnm, idxOfChar_cons_self]
      show some (0 + (user ++ '@' :: host).length) = some (user.length + 1 + host.length)
      exact congrArg some (by simp only [List.length_append, List.length_cons]; omega)
    rw [parseLocation, hat, hcolon]
    dsimp only
    rw [if_pos (by omega)]
    have hdrop1 : (user ++ '@' :: (host ++ ':' :: path)).drop (user.length + 1) =
        host ++ ':' :: path := by
      have heq : user ++ '@' :: (host ++ ':' :: path) =
          (user ++ ['@']) ++ (host ++ ':' :: path) := by simp
      rw [heq, show user.length + 1 = (user ++ ['@']).length from by simp,
        List.drop_left]
    have hdrop2 : (user ++ '@' :: (host ++ ':' :: path)).drop
        (user.length + 1 + host.length + 1) = path := by
      have heq : user ++ '@' :: (host ++ ':' :: path) =
          ((user ++ '@' :: host) ++ [':']) ++ path := by simp
      rw [heq, show user.length + 1 + host.length + 1 =
          ((user ++ '@' :: host) ++ [':']).length from by simp; omega,
        List.drop_left]
    rw [hdrop1, hdrop2,
      show user.length + 1 + host.length - (user.length + 1) = host.length from by omega,
      List.take_left]
  · intro hh hah hch hhead
    have hna : '@' ∉ host ++ [':'] := by
      simp only [List.mem_append, List.mem_cons, List.not_mem_nil]
      push_neg
      exact ⟨hah, by decide, fun h => h.elim⟩
    have hat : idxOfChar '@' (host ++ ':' :: path) =
        (idxOfChar '@' path).map (fun i => i + (host.length + 1)) := by
      have heq : host ++ ':' :: path = (host ++ [':']) ++ path := by simp
      rw [heq, idxOfChar_append_of_not_mem hna]
      simp
    have hcolon : idxOfChar ':' (host ++ ':' :: path) = some host.length := by
      rw [idxOfChar_append_of_not_mem hch, idxOfChar_cons_self]
      simp
    cases hap : idxOfChar '@' path with
    | none =>
      rw [hap] at hat
      rw [parseLocation, hat, hcolon]
      exact parseLocationRest_hostpath host path hh hch hhead
    | some k =>
      rw [hap] at hat
      have hat2 : idxOfChar '@' (host ++ ':' :: path) = some (k + (host.length + 1)) := hat
      rw [parseLocation, hat2, hcolon]
      dsimp only
      rw [if_neg (by omega)]
      exact parseLocationRest_hostpath host path hh hch hhead
  · intro hcp
    rw [parseLocation, idxOfChar_eq_none_of_not_mem hcp]
    cases idxOfChar '@' path with
    | none => exact parseLocationRest_no_colon path hcp
    | some a => exact parseLocationRest_no_colon path hcp
  · intro hhead hap
    rw [parseLocation, idxOfChar_eq_none_of_not_mem hap]
    exact parseLocationRest_slash path hhead
  · have hrest : ∃ h p, parseLocation.parseLocationRest loc = .ok (h, p) := by
      rw [parseLocation.parseLocationRest]
      cases idxOfChar ':' loc with
      | none => exact ⟨[], loc, rfl⟩
      | some colonIndex =>
        dsimp only
        by_cases hh : loc.head? ≠ some '/'
        · rw [if_pos hh]
          exact ⟨_, _, rfl⟩
        · rw [if_neg hh]
          exact ⟨[], loc, rfl⟩
    rw [parseLocation]
    cases idxOfChar '@' loc with
    | none => exact hrest
    | some atIndex =>
      cases idxOfChar ':' loc with
      | none => exact hrest
      | some colonIndex =>
        dsimp only
        by_cases hgt : colonIndex > atIndex
        · rw [if_pos hgt]
          exact ⟨_, _, rfl⟩
        · rw [if_neg hgt]
          exact hrest

/-! ### C7: the buffered invariant of the source worker -/

theorem createTarArchive_ok (bm : BufferState) (fs : FsMap) (batch : Batch)
    (outputPath : String) (tarOutcome : Option Int)
    (bm' : BufferState) (fs' : FsMap) (b' : Batch)
    (h : createTarArchive bm fs batch outputPath tarOutcome = .ok (bm', fs', b')) :
    ∃ L, tarOutcome = some L ∧ b'.size = L ∧ fs' = (outputPath, L) :: fs
      ∧ b'.id = batch.id ∧ b'.status = batch.status ∧ b'.localPath = batch.localPath := by
  cases tarOutcome with
  | none => exact absurd h (by simp [createTarArchive])
  | some L =>
    refine ⟨L, rfl, ?_⟩
    unfold createTarArchive at h
    dsimp only at h
    by_cases hne : L ≠ batch.size
    · rw [if_pos hne] at h
      simp only [Except.ok.injEq, Prod.mk.injEq] at h
      obtain ⟨h1, h2, h3⟩ := h
      subst h3
      exact ⟨rfl, h2.symm, rfl, rfl, rfl⟩
    · rw [if_neg hne] at h
      push_neg at hne
      simp only [Except.ok.injEq, Prod.mk.injEq] at h
      obtain ⟨h1, h2, h3⟩ := h
      subst h3
      exact ⟨hne.symm, h2.symm, rfl, rfl, rfl⟩

/-- C7: whenever `processBatch` succeeds — i.e. the source worker reaches
`SetStatus("buffered")` — the batch's `localPath` is the buffer path of its
archive, the archive's recorded byte length equals the batch's (possibly
reconciled) `size` field, and when the tar run produced `L` bytes the size
field was updated to `L`; the status is `buffered` and is set only after the
stat-and-reconcile step. -/
theorem buffered_invariant (manifestID bufferPath : String) (bm : BufferState)
    (fs : FsMap) (batch : Batch) (tarOutcome : Option Int)
    (bm2 : BufferState) (fs2 : FsMap) (b2 : Batch)
    (h : processBatch manifestID bufferPath bm fs batch tarOutcome = .ok (bm2, fs2, b2)) :
    b2.status = "buffered"
    ∧ b2.localPath = GetBatchPath bufferPath manifestID batch.id
    ∧ (∀ L, tarOutcome = some L → b2.size = L)
    ∧ fs2.lookup b2.localPath = some b2.size := by
  unfold processBatch at h
  dsimp only at h
  cases hrs : ReserveSpace batch.size bm with
  | mk okFlag bm1 =>
    rw [hrs] at h
    cases okFlag with
    | false => exact absurd h (by simp)
    | true =>
      dsimp only at h
      cases hct : createTarArchive bm1 fs { batch with status := "downloading" }
          (GetBatchPath bufferPath manifestID batch.id) tarOutcome with
      | error e => rw [hct] at h; exact absurd h (by simp)
      | ok triple =>
        obtain ⟨bm', fs', b'⟩ := triple
        rw [hct] at h
        dsimp only at h
        obtain ⟨L, hL, hsize, hfs, hid, _, _⟩ :=
          createTarArchive_ok bm1 fs { batch with status := "downloading" }
            (GetBatchPath bufferPath manifestID batch.id) tarOutcome bm' fs' b' hct
        simp only [Except.ok.injEq, Prod.mk.injEq] at h
        obtain ⟨h1, h2, h3⟩ := h
        subst h3
        subst h2
        refine ⟨rfl, rfl, ?_, ?_⟩
        · intro L2 hL2
          rw [hL2] at hL
          injection hL with hL
          simpa [hL] using hsize
        · show fs'.lookup (GetBatchPath bufferPath manifestID batch.id) = some b'.size
          rw [hfs, hsize]
          simp [List.lookup]

/-- C7 witness: a concrete run — declared size 10, actual archive 7 bytes —
reaches `buffered` with `localPath` mapping to a 7-byte file and `size`
reconciled to 7. -/
theorem buffered_invariant_witness :
    (⟨0, ["f"], 7, 1, "buffered", "/buf/m1/batch_00000.tar.gz", ""⟩ : Batch).status
        = "buffered"
    ∧ ([("/buf/m1/batch_00000.tar.gz", (7 : Int))] : FsMap).lookup
        (⟨0, ["f"], 7, 1, "buffered", "/buf/m1/batch_00000.tar.gz", ""⟩ : Batch).localPath
        = some (⟨0, ["f"], 7, 1, "buffered", "/buf/m1/batch_00000.tar.gz", ""⟩ : Batch).size := by
  have h := buffered_invariant "m1" "/buf" (NewBufferManager 1) []
    ⟨0, ["f"], 10, 1, "pending", "", ""⟩ (some 7)
    ⟨7, 1024 * 1024 * 1024⟩ [("/buf/m1/batch_00000.tar.gz", 7)]
    ⟨0, ["f"], 7, 1, "buffered", "/buf/m1/batch_00000.tar.gz", ""⟩ rfl
  exact ⟨h.1, h.2.2.2⟩

/-- C9 witness: the amended theorem applied to the three concrete shapes
`u@h:p`, `h:p` and `/p`, and to the arbitrary input `":p"`. -/
theorem parseLocation_shapes_witness :
    parseLocation ['u', '@', 'h', ':', 'p'] = .ok (['h'], ['p'])
    ∧ parseLocation ['h', ':', 'p'] = .ok (['h'], ['p'])
    ∧ parseLocation ['/', 'p'] = .ok ([], ['/', 'p'])
    ∧ ∃ h p, parseLocation [':', 'p'] = .ok (h, p) :=
  ⟨(parseLocation_shapes ['u'] ['h'] ['p'] []).1
      (by decide) (by decide) (by decide) (by decide),
   (parseLocation_shapes [] ['h'] ['p'] []).2.1
      (by decide) (by decide) (by decide) (by decide),
   (parseLocation_shapes [] [] ['/', 'p'] []).2.2.2.1 (by decide) (by decide),
   (parseLocation_shapes [] [] [] [':', 'p']).2.2.2.2⟩

/-! ### C6: local analysis down-sampling -/

theorem analyzeStep_fields_big (a : FileAnalyzer) (k : Int) (hk : 1 < k)
    (acc : FileAnalysisCounts) (s : Int) :
    analyzeStep a k acc s =
      { totalSize := acc.totalSize + s * k,
        totalFiles := acc.totalFiles + k,
        smallFiles := acc.smallFiles + (if s < a.smallFileThreshold then 1 else 0),
        mediumFiles := acc.mediumFiles +
          (if ¬ s < a.smallFileThreshold ∧ ¬ s > a.largeFileThreshold then 1 else 0),
        largeFiles := acc.largeFiles +
          (if ¬ s < a.smallFileThreshold ∧ s > a.largeFileThreshold then 1 else 0) } := by
  unfold analyzeStep
  by_cases hs : s < a.smallFileThreshold
  · simp [hs, hk]
  · by_cases hl : s > a.largeFileThreshold
    · simp [hs, hl, hk]
    · simp [hs, hl, hk]

theorem analyzeStep_fields_one (a : FileAnalyzer) (k : Int) (hk : ¬ 1 < k)
    (acc : FileAnalysisCounts) (s : Int) :
    analyzeStep a k acc s =
      { totalSize := acc.totalSize + s,
        totalFiles := acc.totalFiles + 1,
        smallFiles := acc.smallFiles + (if s < a.smallFileThreshold then 1 else 0),
        mediumFiles := acc.mediumFiles +
          (if ¬ s < a.smallFileThreshold ∧ ¬ s > a.largeFileThreshold then 1 else 0),
        largeFiles := acc.largeFiles +
          (if ¬ s < a.smallFileThreshold ∧ s > a.largeFileThreshold then 1 else 0) } := by
  unfold analyzeStep
  by_cases hs : s < a.smallFileThreshold
  · simp [hs, hk]
  · by_cases hl : s > a.largeFileThreshold
    · simp [hs, hl, hk]
    · simp [hs, hl, hk]

theorem foldl_analyzeStep_big (a : FileAnalyzer) (k : Int) (hk : 1 < k) :
    ∀ (S : List Int) (acc : FileAnalysisCounts),
      S.foldl (analyzeStep a k) acc =
        { totalSize := acc.totalSize + S.sum * k,
          totalFiles := acc.totalFiles + (S.length : Int) * k,
          smallFiles := acc.smallFiles +
            ((S.filter (fun s => s < a.smallFileThreshold)).length : Int),
          mediumFiles := acc.mediumFiles + ((S.filter (fun s =>
            ¬ s < a.smallFileThreshold ∧ ¬ s > a.largeFileThreshold)).length : Int),
          largeFiles := acc.largeFiles + ((S.filter (fun s =>
            ¬ s < a.smallFileThreshold ∧ s > a.largeFileThreshold)).length : Int) } := by
  intro S
  induction S with
  | nil => intro acc; simp
  | cons s S ih =>
    intro acc
    rw [List.foldl_cons, ih, analyzeStep_fields_big a k hk]
    by_cases hs : s < a.smallFileThreshold
    · simp only [List.sum_cons, List.length_cons, List.filter_cons, hs,
        FileAnalysisCounts.mk.injEq]
      norm_num
      refine ⟨by ring, by ring, by ring⟩
    · by_cases hl : s > a.largeFileThreshold
      · simp only [List.sum_cons, List.length_cons, List.filter_cons, hs, hl,
          FileAnalysisCounts.mk.injEq]
        norm_num
        refine ⟨by ring, by ring, by ring⟩
      · simp only [List.sum_cons, List.length_cons, List.filter_cons, hs, hl,
          FileAnalysisCounts.mk.injEq]
        norm_num
        refine ⟨by ring, by ring, by ring⟩

theorem foldl_analyzeStep_one (a : FileAnalyzer) (k : Int) (hk : ¬ 1 < k) :
    ∀ (S : List Int) (acc : FileAnalysisCounts),
      S.foldl (analyzeStep a k) acc =
        { totalSize := acc.totalSize + S.sum,
          totalFiles := acc.totalFiles + (S.length : Int),
          smallFiles := acc.smallFiles +
            ((S.filter (fun s => s < a.smallFileThreshold)).length : Int),
          mediumFiles := acc.mediumFiles + ((S.filter (fun s =>
            ¬ s < a.smallFileThreshold ∧ ¬ s > a.largeFileThreshold)).length : Int),
          largeFiles := acc.largeFiles + ((S.filter (fun s =>
            ¬ s < a.smallFileThreshold ∧ s > a.largeFileThreshold)).length : Int) } := by
  intro S
  induction S with
  | nil => intro acc; simp
  | cons s S ih =>
    intro acc
    rw [List.foldl_cons, ih, analyzeStep_fields_one a k hk]
    by_cases hs : s < a.smallFileThreshold
    · simp only [List.sum_cons, List.length_cons, List.filter_cons, hs,
        FileAnalysisCounts.mk.injEq]
      norm_num
      refine ⟨by ring, by ring, by ring⟩
    · by_cases hl : s > a.largeFileThreshold
      · simp only [List.sum_cons, List.length_cons, List.filter_cons, hs, hl,
          FileAnalysisCounts.mk.injEq]
        norm_num
        refine ⟨by ring, by ring, by ring⟩
      · simp only [List.sum_cons, List.length_cons, List.filter_cons, hs, hl,
          FileAnalysisCounts.mk.injEq]
        norm_num
        refine ⟨by ring, by ring, by ring⟩

theorem analyzeLoop_eq_foldl_sampled (a : FileAnalyzer) (k : Int) (hk : 1 < k) :
    ∀ (l : List Int) (c : Int) (acc : FileAnalysisCounts),
      analyzeLoop a k l c acc = (sampledEvery k l c).foldl (analyzeStep a k) acc := by
  intro l
  induction l with
  | nil => intro c acc; rfl
  | cons s rest ih =>
    intro c acc
    simp only [analyzeLoop, sampledEvery]
    by_cases hm : (c + 1) % k = 0
    · rw [if_neg (by simp [hm]), if_pos hm, List.foldl_cons, ih]
    · rw [if_pos ⟨hk, hm⟩, if_neg hm, ih]

theorem analyzeLoop_eq_foldl (a : FileAnalyzer) (k : Int) (hk : ¬ 1 < k) :
    ∀ (l : List Int) (c : Int) (acc : FileAnalysisCounts),
      analyzeLoop a k l c acc = l.foldl (analyzeStep a k) acc := by
  intro l
  induction l with
  | nil => intro c acc; rfl
  | cons s rest ih =>
    intro c acc
    simp only [analyzeLoop, List.foldl_cons]
    rw [if_neg (by intro h; exact hk h.1), ih]

/-- C6 counterexample: with `max_sample_size = 2` and five files of one byte
each, the code's interval is `⌊5/2⌋ = 2` (not `⌈5/2⌉ = 3`), it samples the
2nd and 4th files, scales only the totals (`totalFiles = 4`, `totalSize =
4`), and leaves the bucket counters unscaled (`smallFiles = 2`); the claim's
reading would give `totalFiles = totalSize = smallFiles = 3`. -/
theorem analyzeLocal_sampling_counterexample :
    analyzeLocal ⟨10, 100, 1000, 80, 50, 10, 2⟩ [1, 1, 1, 1, 1] = ⟨4, 4, 2, 0, 0⟩
    ∧ analyzeLocalClaim ⟨10, 100, 1000, 80, 50, 10, 2⟩ [1, 1, 1, 1, 1] = ⟨3, 3, 3, 0, 0⟩
    ∧ (5 : Int) > 2 := by
  refine ⟨by decide, by decide, by decide⟩

/-- C6 amended: when the local walk counts more files than
`max_sample_size`, the interval is the *truncating* division
`total / max_sample_size`; if it exceeds 1 the analyzer keeps every
interval-th file in walk order and scales only `totalFiles` and `totalSize`
by the interval, while the small/medium/large bucket counters count the
sampled files unscaled; if the truncating quotient is 1, no sampling
occurs. -/
theorem analyzeLocal_sampling_amended (a : FileAnalyzer) (sizes : List Int)
    (_hM : 0 < a.maxSampleSize) (_hT : (sizes.length : Int) > a.maxSampleSize) :
    (1 < sampleIntervalOf a.maxSampleSize (sizes.length : Int) →
      analyzeLocal a sizes =
        { totalSize := (sampledEvery (sampleIntervalOf a.maxSampleSize
              (sizes.length : Int)) sizes 0).sum
              * sampleIntervalOf a.maxSampleSize (sizes.length : Int),
          totalFiles := (((sampledEvery (sampleIntervalOf a.maxSampleSize
              (sizes.length : Int)) sizes 0).length : Int))
              * sampleIntervalOf a.maxSampleSize (sizes.length : Int),
          smallFiles := (((sampledEvery (sampleIntervalOf a.maxSampleSize
              (sizes.length : Int)) sizes 0).filter
              (fun s => s < a.smallFileThreshold)).length : Int),
          mediumFiles := (((sampledEvery (sampleIntervalOf a.maxSampleSize
              (sizes.length : Int)) sizes 0).filter (fun s =>
              ¬ s < a.smallFileThreshold ∧ ¬ s > a.largeFileThreshold)).length : Int),
          largeFiles := (((sampledEvery (sampleIntervalOf a.maxSampleSize
              (sizes.length : Int)) sizes 0).filter (fun s =>
              ¬ s < a.smallFileThreshold ∧ s > a.largeFileThreshold)).length : Int) })
    ∧ (sampleIntervalOf a.maxSampleSize (sizes.length : Int) = 1 →
        analyzeLocal a sizes =
          { totalSize := sizes.sum,
            totalFiles := (sizes.length : Int),
            smallFiles := ((sizes.filter (fun s => s < a.smallFileThreshold)).length : Int),
            mediumFiles := ((sizes.filter (fun s =>
              ¬ s < a.smallFileThreshold ∧ ¬ s > a.largeFileThreshold)).length : Int),
            largeFiles := ((sizes.filter (fun s =>
              ¬ s < a.smallFileThreshold ∧ s > a.largeFileThreshold)).length : Int) }) := by
  constructor
  · intro hk
    show analyzeLoop a (sampleIntervalOf a.maxSampleSize (sizes.length : Int)) sizes 0
        ⟨0, 0, 0, 0, 0⟩ = _
    rw [analyzeLoop_eq_foldl_sampled a _ hk, foldl_analyzeStep_big a _ hk]
    simp
  · intro hk
    show analyzeLoop a (sampleIntervalOf a.maxSampleSize (sizes.length : Int)) sizes 0
        ⟨0, 0, 0, 0, 0⟩ = _
    rw [hk, analyzeLoop_eq_foldl a 1 (by omega), foldl_analyzeStep_one a 1 (by omega)]
    simp

/-- C6 witness: the amended theorem at `max_sample_size = 2` and five 1-byte
files — interval 2, sampled files the 2nd and 4th, totals scaled by 2,
buckets unscaled. -/
theorem analyzeLocal_sampling_amended_witness :
    analyzeLocal ⟨10, 100, 1000, 80, 50, 10, 2⟩ [1, 1, 1, 1, 1] =
      { totalSize := (sampledEvery (sampleIntervalOf 2 5) [1, 1, 1, 1, 1] 0).sum
          * sampleIntervalOf 2 5,
        totalFiles := (((sampledEvery (sampleIntervalOf 2 5) [1, 1, 1, 1, 1] 0).length : Int))
          * sampleIntervalOf 2 5,
        smallFiles := (((sampledEvery (sampleIntervalOf 2 5) [1, 1, 1, 1, 1] 0).filter
          (fun s => s < (10 : Int))).length : Int),
        mediumFiles := (((sampledEvery (sampleIntervalOf 2 5) [1, 1, 1, 1, 1] 0).filter
          (fun s => ¬ s < (10 : Int) ∧ ¬ s > (100 : Int))).length : Int),
        largeFiles := (((sampledEvery (sampleIntervalOf 2 5) [1, 1, 1, 1, 1] 0).filter
          (fun s => ¬ s < (10 : Int) ∧ s > (100 : Int))).length : Int) } :=
  (analyzeLocal_sampling_amended ⟨10, 100, 1000, 80, 50, 10, 2⟩ [1, 1, 1, 1, 1]
    (by decide) (by decide)).1 (by decide)

/-! ### C2: bin packing -/

theorem segSize_nil : segSize [] = 0 := rfl

theorem segSize_append (l1 l2 : List FileInfo) :
    segSize (l1 ++ l2) = segSize l1 + segSize l2 := by
  simp [segSize]

theorem segSize_singleton (f : FileInfo) : segSize [f] = f.size := by
  simp [segSize]

theorem segSize_pos {l : List FileInfo} (hpos : ∀ f ∈ l, 0 < f.size)
    (hne : l ≠ []) : 0 < segSize l := by
  apply List.sum_pos
  · intro x hx
    obtain ⟨f, hf, rfl⟩ := List.mem_map.1 hx
    exact hpos f hf
  · simpa using hne

theorem segSize_nonpos_nil {l : List FileInfo} (hpos : ∀ f ∈ l, 0 < f.size)
    (h : ¬ segSize l > 0) : l = [] := by
  by_contra hne
  exact h (segSize_pos hpos hne)

theorem headSize_append (l l2 : List FileInfo) (h : l ≠ []) :
    headSize (l ++ l2) = headSize l := by
  cases l with
  | nil => exact absurd rfl h
  | cons x xs => rfl

theorem binPack_corr (ts : Int) :
    ∀ (files cur : List FileInfo) (segs : List (List FileInfo)),
      binPackLoop ts files ⟨cur.map (fun f => f.path), segSize cur⟩ (segs.map segToBatch)
        = (binPackSegsLoop ts files cur segs).map segToBatch := by
  intro files
  induction files with
  | nil =>
    intro cur segs
    simp only [binPackLoop, binPackSegsLoop]
    dsimp only
    by_cases h : cur.length > 0
    · rw [if_pos (by simpa using h), if_pos h, List.map_append]
      rfl
    · rw [if_neg (by simpa using h), if_neg h]
  | cons f rest ih =>
    intro cur segs
    simp only [binPackLoop, binPackSegsLoop]
    by_cases h : segSize cur > 0 ∧ segSize cur + f.size > ts
    · rw [if_pos h, if_pos h]
      have h1 : (⟨[f.path], f.size⟩ : BatchInfo) =
          ⟨[f].map (fun f => f.path), segSize [f]⟩ := by
        simp [segSize]
      have h2 : List.map segToBatch segs ++ [⟨cur.map (fun f => f.path), segSize cur⟩] =
          (segs ++ [cur]).map segToBatch := by
        simp [segToBatch]
      rw [h1, h2, ih]
    · rw [if_neg h, if_neg h]
      have h1 : (⟨cur.map (fun f => f.path) ++ [f.path], segSize cur + f.size⟩ : BatchInfo) =
          ⟨(cur ++ [f]).map (fun f => f.path), segSize (cur ++ [f])⟩ := by
        simp [segSize]
      rw [h1, ih]

theorem binPackSegsLoop_flatten (ts : Int) :
    ∀ (files cur : List FileInfo) (segs : List (List FileInfo)),
      (binPackSegsLoop ts files cur segs).flatten = segs.flatten ++ cur ++ files := by
  intro files
  induction files with
  | nil =>
    intro cur segs
    simp only [binPackSegsLoop]
    by_cases h : cur.length > 0
    · rw [if_pos h]
      simp
    · rw [if_neg h]
      have hc : cur = [] := by
        cases cur with
        | nil => rfl
        | cons x xs => simp at h
      subst hc
      simp
  | cons f rest ih =>
    intro cur segs
    simp only [binPackSegsLoop]
    by_cases h : segSize cur > 0 ∧ segSize cur + f.size > ts
    · rw [if_pos h, ih]
      simp
    · rw [if_neg h, ih]
      simp

theorem binPackSegsLoop_nonempty (ts : Int) :
    ∀ (files cur : List FileInfo) (segs : List (List FileInfo)),
      (∀ s ∈ segs, s ≠ []) →
      ∀ s ∈ binPackSegsLoop ts files cur segs, s ≠ [] := by
  intro files
  induction files with
  | nil =>
    intro cur segs hsegs
    simp only [binPackSegsLoop]
    by_cases h : cur.length > 0
    · rw [if_pos h]
      intro s hs
      rcases List.mem_append.1 hs with hl | hr
      · exact hsegs s hl
      · rw [List.mem_singleton.1 hr]
        intro hnil
        rw [hnil] at h
        simp at h
    · rw [if_neg h]
      exact hsegs
  | cons f rest ih =>
    intro cur segs hsegs
    simp only [binPackSegsLoop]
    by_cases h : segSize cur > 0 ∧ segSize cur + f.size > ts
    · rw [if_pos h]
      apply ih
      intro s hs
      rcases List.mem_append.1 hs with hl | hr
      · exact hsegs s hl
      · rw [List.mem_singleton.1 hr]
        intro hnil
        rw [hnil] at h
        exact absurd h.1 (by simp [segSize_nil])
    · rw [if_neg h]
      exact ih (cur ++ [f]) segs hsegs

theorem consecOK_append (ts : Int) :
    ∀ (segs : List (List FileInfo)) (cur : List FileInfo),
      consecOK ts segs →
      (∀ l, segs.getLast? = some l → segSize l + headSize cur > ts) →
      consecOK ts (segs ++ [cur])
  | [], cur, _, _ => by simp [consecOK]
  | [s1], cur, _, hl => by
    exact ⟨hl s1 rfl, by simp [consecOK]⟩
  | s1 :: s2 :: rest, cur, h, hl => by
    obtain ⟨hp, hc⟩ := h
    exact ⟨hp, consecOK_append ts (s2 :: rest) cur hc
      (fun l hll => hl l (by rw [List.getLast?_cons_cons]; exact hll))⟩

theorem binPackSegsLoop_consec (ts : Int) :
    ∀ (files cur : List FileInfo) (segs : List (List FileInfo)),
      consecOK ts segs →
      (∀ l, segs.getLast? = some l → cur ≠ [] → segSize l + headSize cur > ts) →
      (cur = [] → segs = []) →
      consecOK ts (binPackSegsLoop ts files cur segs) := by
  intro files
  induction files with
  | nil =>
    intro cur segs hco hlink _
    simp only [binPackSegsLoop]
    by_cases h : cur.length > 0
    · rw [if_pos h]
      refine consecOK_append ts segs cur hco (fun l hll => hlink l hll ?_)
      intro hnil
      rw [hnil] at h
      simp at h
    · rw [if_neg h]
      exact hco
  | cons f rest ih =>
    intro cur segs hco hlink hinit
    simp only [binPackSegsLoop]
    by_cases h : segSize cur > 0 ∧ segSize cur + f.size > ts
    · rw [if_pos h]
      have hcne : cur ≠ [] := by
        intro hnil
        rw [hnil] at h
        exact absurd h.1 (by simp [segSize_nil])
      refine ih [f] (segs ++ [cur]) ?_ ?_ ?_
      · exact consecOK_append ts segs cur hco (fun l hll => hlink l hll hcne)
      · intro l hll _
        rw [List.getLast?_concat] at hll
        injection hll with hll
        subst hll
        show segSize cur + headSize [f] > ts
        simpa [headSize] using h.2
      · intro hf
        exact absurd hf (by simp)
    · rw [if_neg h]
      refine ih (cur ++ [f]) segs hco ?_ ?_
      · intro l hll _
        cases cur with
        | nil =>
          rw [hinit rfl] at hll
          simp at hll
        | cons c cs =>
          rw [headSize_append (c :: cs) [f] (by simp)]
          exact hlink l hll (by simp)
      · intro hf
        exact absurd hf (by simp)

theorem withinOK_nil (ts : Int) : withinOK ts [] := by
  intro k hk hklen
  simp at hklen

theorem withinOK_singleton (ts : Int) (f : FileInfo) : withinOK ts [f] := by
  intro k hk hklen
  simp at hklen
  omega

theorem withinOK_append_of (ts : Int) (cur : List FileInfo) (f : FileInfo)
    (hcur : withinOK ts cur)
    (hns : ¬ (segSize cur > 0 ∧ segSize cur + f.size > ts)) :
    withinOK ts (cur ++ [f]) := by
  intro k hk hklen
  simp only [List.length_append, List.length_singleton] at hklen
  rcases Nat.lt_or_ge k cur.length with hlt | hge
  · rw [List.take_append_of_le_length (le_of_lt hlt),
      List.drop_append_of_le_length (le_of_lt hlt)]
    have hne : cur.drop k ≠ [] := by
      intro hnil
      have := congrArg List.length hnil
      simp at this
      omega
    rw [headSize_append _ _ hne]
    exact hcur k hk hlt
  · have hkeq : k = cur.length := by omega
    subst hkeq
    rw [List.take_left, List.drop_left]
    by_cases hp : segSize cur > 0
    · right
      have hb : ¬ segSize cur + f.size > ts := fun hb => hns ⟨hp, hb⟩
      show segSize cur + headSize [f] ≤ ts
      simpa [headSize] using hb
    · left
      omega

theorem binPackSegsLoop_within (ts : Int) :
    ∀ (files cur : List FileInfo) (segs : List (List FileInfo)),
      (∀ s ∈ segs, withinOK ts s) → withinOK ts cur →
      ∀ s ∈ binPackSegsLoop ts files cur segs, withinOK ts s := by
  intro files
  induction files with
  | nil =>
    intro cur segs hsegs hcur
    simp only [binPackSegsLoop]
    by_cases h : cur.length > 0
    · rw [if_pos h]
      intro s hs
      rcases List.mem_append.1 hs with hl | hr
      · exact hsegs s hl
      · rw [List.mem_singleton.1 hr]
        exact hcur
    · rw [if_neg h]
      exact hsegs
  | cons f rest ih =>
    intro cur segs hsegs hcur
    simp only [binPackSegsLoop]
    by_cases h : segSize cur > 0 ∧ segSize cur + f.size > ts
    · rw [if_pos h]
      refine ih [f] (segs ++ [cur]) ?_ (withinOK_singleton ts f)
      intro s hs
      rcases List.mem_append.1 hs with hl | hr
      · exact hsegs s hl
      · rw [List.mem_singleton.1 hr]
        exact hcur
    · rw [if_neg h]
      exact ih (cur ++ [f]) segs hsegs (withinOK_append_of ts cur f hcur h)

theorem binPackSegsLoop_bigAlone (ts : Int) :
    ∀ (files cur : List FileInfo) (segs : List (List FileInfo)),
      (∀ f ∈ files, 0 < f.size) → (∀ f ∈ cur, 0 < f.size) →
      (∀ s ∈ segs, ∀ f ∈ s, f.size > ts → s = [f]) →
      (∀ f ∈ cur, f.size > ts → cur = [f]) →
      ∀ s ∈ binPackSegsLoop ts files cur segs, ∀ f ∈ s, f.size > ts → s = [f] := by
  intro files
  induction files with
  | nil =>
    intro cur segs _ _ hsegs hcur
    simp only [binPackSegsLoop]
    by_cases h : cur.length > 0
    · rw [if_pos h]
      intro s hs
      rcases List.mem_append.1 hs with hl | hr
      · exact hsegs s hl
      · rw [List.mem_singleton.1 hr]
        exact hcur
    · rw [if_neg h]
      exact hsegs
  | cons f rest ih =>
    intro cur segs hposf hposc hsegs hcur
    have hposrest : ∀ g ∈ rest, 0 < g.size :=
      fun g hg => hposf g (List.mem_cons_of_mem f hg)
    have hposhead : 0 < f.size := hposf f (List.mem_cons_self f rest)
    simp only [binPackSegsLoop]
    by_cases h : segSize cur > 0 ∧ segSize cur + f.size > ts
    · rw [if_pos h]
      refine ih [f] (segs ++ [cur]) hposrest ?_ ?_ ?_
      · intro g hg
        rw [List.mem_singleton.1 hg]
        exact hposhead
      · intro s hs
        rcases List.mem_append.1 hs with hl | hr
        · exact hsegs s hl
        · rw [List.mem_singleton.1 hr]
          exact hcur
      · intro g hg _
        rw [List.mem_singleton.1 hg]
    · rw [if_neg h]
      refine ih (cur ++ [f]) segs hposrest ?_ hsegs ?_
      · intro g hg
        rcases List.mem_append.1 hg with hl | hr
        · exact hposc g hl
        · rw [List.mem_singleton.1 hr]
          exact hposhead
      · intro g hg hgts
        rcases List.mem_append.1 hg with hl | hr
        · -- a file of `cur` exceeds the budget: then `cur = [g]` and the
          -- seal guard would have fired, contradicting the else branch
          have hc : cur = [g] := hcur g hl hgts
          exfalso
          apply h
          constructor
          · rw [hc, segSize_singleton]
            exact hposc g hl
          · rw [hc, segSize_singleton]
            have := hposhead
            omega
        · -- the incoming file exceeds the budget: `cur` must be empty
          rw [List.mem_singleton.1 hr] at hgts ⊢
          have hc : cur = [] := by
            by_contra hne
            have hpos := segSize_pos hposc hne
            exact h ⟨hpos, by omega⟩
          rw [hc]
          rfl

theorem consecOK_get (ts : Int) :
    ∀ (l : List (List FileInfo)), consecOK ts l →
      ∀ i (hi : i + 1 < l.length),
        segSize (l.get ⟨i, Nat.lt_of_succ_lt hi⟩) + headSize (l.get ⟨i + 1, hi⟩) > ts := by
  intro l
  induction l with
  | nil =>
    intro _ i hi
    simp at hi
  | cons s1 t ih =>
    intro h i hi
    cases t with
    | nil => simp at hi
    | cons s2 t2 =>
      obtain ⟨hp, hc⟩ := h
      cases i with
      | zero => exact hp
      | succ j =>
        exact ih hc j (by simpa using hi)

/-- C2 counterexample: with chunk budget 1 MiB, a zero-size file `a`
followed by `b` of 1 MiB + 1 bytes lands in the same batch as `a` — the
code's seal guard tests `current.size > 0`, not non-emptiness, so the
oversized file does not occupy its own batch even though all sizes are
non-negative. -/
theorem binPack_counterexample :
    binPackFiles 1 [⟨"a", 0⟩, ⟨"b", 1048577⟩] = [⟨["a", "b"], 1048577⟩]
    ∧ (0 : Int) ≥ 0 ∧ (1048577 : Int) > 1 * 1024 * 1024
    ∧ ¬ ∃ b ∈ binPackFiles 1 [⟨"a", 0⟩, ⟨"b", 1048577⟩], b.files = ["b"] := by
  refine ⟨by decide, by decide, by decide, by decide⟩

/-- C2 amended: assuming every enumerated size is strictly positive (the
claim's "non-negative" fails for zero-size files, since the code seals on
positive accumulated size rather than non-emptiness): the batches are the
segment packing mapped to path lists; concatenating the segments in id order
yields the input, so each file lands in exactly one batch; every batch is
non-empty; for consecutive batches, the earlier batch's size plus the first
file of the later batch exceeds the budget; no internal split point of a
batch would have triggered a seal; and a single file larger than the budget
occupies its own batch. -/
theorem binPack_amended (chunkSizeMB : Int) (files : List FileInfo)
    (hpos : ∀ f ∈ files, 0 < f.size) :
    binPackFiles chunkSizeMB files =
        (binPackSegs (chunkSizeMB * 1024 * 1024) files).map segToBatch
    ∧ (binPackSegs (chunkSizeMB * 1024 * 1024) files).flatten = files
    ∧ (∀ s ∈ binPackSegs (chunkSizeMB * 1024 * 1024) files, s ≠ [])
    ∧ (∀ i (hi : i + 1 < (binPackSegs (chunkSizeMB * 1024 * 1024) files).length),
        segSize ((binPackSegs (chunkSizeMB * 1024 * 1024) files).get
            ⟨i, Nat.lt_of_succ_lt hi⟩)
          + headSize ((binPackSegs (chunkSizeMB * 1024 * 1024) files).get ⟨i + 1, hi⟩)
          > chunkSizeMB * 1024 * 1024)
    ∧ (∀ s ∈ binPackSegs (chunkSizeMB * 1024 * 1024) files,
        withinOK (chunkSizeMB * 1024 * 1024) s)
    ∧ (∀ s ∈ binPackSegs (chunkSizeMB * 1024 * 1024) files,
        ∀ f ∈ s, f.size > chunkSizeMB * 1024 * 1024 → s = [f]) := by
  refine ⟨?_, ?_, ?_, ?_, ?_, ?_⟩
  · exact binPack_corr (chunkSizeMB * 1024 * 1024) files [] []
  · rw [binPackSegs, binPackSegsLoop_flatten]
    simp
  · exact binPackSegsLoop_nonempty _ files [] [] (by simp)
  · exact consecOK_get _ _
      (binPackSegsLoop_consec _ files [] [] (by simp [consecOK])
        (by simp) (fun _ => rfl))
  · exact binPackSegsLoop_within _ files [] [] (by simp) (withinOK_nil _)
  · exact binPackSegsLoop_bigAlone _ files [] [] hpos (by simp) (by simp) (by simp)

/-- C2 witness: the amended theorem at chunk budget 1 MiB on four positive
sizes; the enumeration order is preserved and the packing matches the
segment view. -/
theorem binPack_amended_witness :
    binPackFiles 1 [⟨"a", 500000⟩, ⟨"b", 400000⟩, ⟨"c", 300000⟩, ⟨"d", 1200000⟩] =
        (binPackSegs (1 * 1024 * 1024)
          [⟨"a", 500000⟩, ⟨"b", 400000⟩, ⟨"c", 300000⟩, ⟨"d", 1200000⟩]).map segToBatch
    ∧ (binPackSegs (1 * 1024 * 1024)
          [⟨"a", 500000⟩, ⟨"b", 400000⟩, ⟨"c", 300000⟩, ⟨"d", 1200000⟩]).flatten =
        [⟨"a", 500000⟩, ⟨"b", 400000⟩, ⟨"c", 300000⟩, ⟨"d", 1200000⟩] :=
  ⟨(binPack_amended 1 [⟨"a", 500000⟩, ⟨"b", 400000⟩, ⟨"c", 300000⟩, ⟨"d", 1200000⟩]
      (by decide)).1,
   (binPack_amended 1 [⟨"a", 500000⟩, ⟨"b", 400000⟩, ⟨"c", 300000⟩, ⟨"d", 1200000⟩]
      (by decide)).2.1⟩

/-! ### C1: exactly-once dispatch -/

theorem upd_self {α : Type} (f : Nat → α) (i : Nat) (v : α) : upd f i v i = v := by
  simp [upd]

theorem upd_other {α : Type} (f : Nat → α) {i j : Nat} (v : α) (h : j ≠ i) :
    upd f i v j = f j := by
  simp [upd, h]

theorem dinv_init : DInv initDispatch := by
  intro i
  refine ⟨rfl, ?_, ?_, ?_, ?_, ?_, ?_⟩
  · intro h; exact absurd h (by simp [initDispatch])
  · intro h; exact absurd h (by simp [initDispatch])
  · intro h; exact absurd h (by simp [initDispatch])
  · intro h; exact absurd h (by simp [initDispatch])
  · intro h; exact absurd h (by simp [initDispatch])
  · intro h; exact absurd h (by simp [initDispatch])

theorem dinv_step {n : Nat} {s t : DispatchState} (hstep : DStep n s t)
    (hinv : DInv s) : DInv t := by
  cases hstep with
  | srcStart j hj hs =>
    intro i
    dsimp only
    obtain ⟨c1, c2, c3, c4, c5, c6, c7⟩ := hinv i
    by_cases hij : i = j
    · subst hij
      refine ⟨c1, c2, c3, ?_, ?_, ?_, ?_⟩
      · intro h4; rw [upd_self] at h4; exact absurd h4 (by decide)
      · intro h5; rw [upd_self] at h5; exact absurd h5 (by decide)
      · intro hwb
        rcases c6 hwb with h | h | h | h <;> rw [hs] at h <;> exact absurd h (by decide)
      · intro hwb _
        rcases c6 hwb with h | h | h | h <;> rw [hs] at h <;> exact absurd h (by decide)
    · refine ⟨c1, c2, c3, ?_, ?_, ?_, ?_⟩
      · intro h4; rw [upd_other _ _ hij] at h4; exact c4 h4
      · intro h5; rw [upd_other _ _ hij] at h5; exact c5 h5
      · intro hwb; rw [upd_other _ _ hij]; exact c6 hwb
      · intro hwb h7; rw [upd_other _ _ hij] at h7; exact c7 hwb h7
  | srcBuffer j hj hs =>
    intro i
    dsimp only
    obtain ⟨c1, c2, c3, c4, c5, c6, c7⟩ := hinv i
    by_cases hij : i = j
    · subst hij
      refine ⟨c1, ?_, c3, ?_, ?_, ?_, ?_⟩
      · intro _; rw [upd_self]
      · intro h4; rw [upd_self] at h4; exact absurd h4 (by decide)
      · intro _; rw [upd_self]
      · intro _; left; rw [upd_self]
      · intro _ h7; rw [upd_self] at h7
        rcases h7 with h | h <;> exact absurd h (by decide)
    · refine ⟨c1, ?_, c3, ?_, ?_, ?_, ?_⟩
      · intro h2; rw [upd_other _ _ hij]; exact c2 h2
      · intro h4; rw [upd_other _ _ hij] at h4; exact c4 h4
      · intro h5; rw [upd_other _ _ hij] at h5; rw [upd_other _ _ hij]; exact c5 h5
      · intro hwb; rw [upd_other _ _ hij] at hwb; rw [upd_other _ _ hij]; exact c6 hwb
      · intro hwb h7
        rw [upd_other _ _ hij] at hwb
        rw [upd_other _ _ hij] at h7
        exact c7 hwb h7
  | srcFail j hj hs =>
    intro i
    dsimp only
    obtain ⟨c1, c2, c3, c4, c5, c6, c7⟩ := hinv i
    by_cases hij : i = j
    · subst hij
      refine ⟨c1, c2, c3, ?_, ?_, ?_, ?_⟩
      · intro h4; rw [upd_self] at h4; exact absurd h4 (by decide)
      · intro h5; rw [upd_self] at h5; exact absurd h5 (by decide)
      · intro hwb
        rcases c6 hwb with h | h | h | h <;> rw [hs] at h <;> exact absurd h (by decide)
      · intro hwb _
        rcases c6 hwb with h | h | h | h <;> rw [hs] at h <;> exact absurd h (by decide)
    · refine ⟨c1, c2, c3, ?_, ?_, ?_, ?_⟩
      · intro h4; rw [upd_other _ _ hij] at h4; exact c4 h4
      · intro h5; rw [upd_other _ _ hij] at h5; exact c5 h5
      · intro hwb; rw [upd_other _ _ hij]; exact c6 hwb
      · intro hwb h7; rw [upd_other _ _ hij] at h7; exact c7 hwb h7
  | pollDispatch j hj hs hd =>
    intro i
    dsimp only
    obtain ⟨c1, c2, c3, c4, c5, c6, c7⟩ := hinv i
    by_cases hij : i = j
    · subst hij
      refine ⟨?_, ?_, ?_, ?_, c5, c6, ?_⟩
      · rw [upd_self, upd_self, if_pos rfl, c1, hd]
        rfl
      · intro _; exact c5 hs
      · intro _; rw [upd_self]
      · intro _; rw [upd_self]
      · intro _ _; rw [upd_self]
    · refine ⟨?_, ?_, ?_, ?_, c5, c6, ?_⟩
      · rw [upd_other _ _ hij, upd_other _ _ hij]; exact c1
      · intro h2; rw [upd_other _ _ hij] at h2; exact c2 h2
      · intro h3
        rw [upd_other _ _ hij]
        rcases List.mem_append.1 h3 with hl | hr
        · exact c3 hl
        · exact absurd (List.mem_singleton.1 hr) hij
      · intro h4; rw [upd_other _ _ hij]; exact c4 h4
      · intro hwb h7; rw [upd_other _ _ hij]; exact c7 hwb h7
  | destStart j rest hq =>
    intro i
    dsimp only
    obtain ⟨c1, c2, c3, c4, c5, c6, c7⟩ := hinv i
    by_cases hij : i = j
    · subst hij
      refine ⟨c1, c2, ?_, ?_, ?_, ?_, ?_⟩
      · intro h3; exact c3 (by rw [hq]; exact List.mem_cons_of_mem _ h3)
      · intro _; exact c3 (by rw [hq]; exact List.mem_cons_self _ _)
      · intro h5; rw [upd_self] at h5; exact absurd h5 (by decide)
      · intro _; right; left; rw [upd_self]
      · intro hwb h7; rw [upd_self] at h7
        rcases h7 with h | h <;> exact absurd h (by decide)
    · refine ⟨c1, c2, ?_, ?_, ?_, ?_, ?_⟩
      · intro h3; exact c3 (by rw [hq]; exact List.mem_cons_of_mem j h3)
      · intro h4; rw [upd_other _ _ hij] at h4; exact c4 h4
      · intro h5; rw [upd_other _ _ hij] at h5; exact c5 h5
      · intro hwb; rw [upd_other _ _ hij]; exact c6 hwb
      · intro hwb h7; rw [upd_other _ _ hij] at h7; exact c7 hwb h7
  | destComplete j hj hs =>
    intro i
    dsimp only
    obtain ⟨c1, c2, c3, c4, c5, c6, c7⟩ := hinv i
    by_cases hij : i = j
    · subst hij
      refine ⟨c1, c2, c3, ?_, ?_, ?_, ?_⟩
      · intro h4; rw [upd_self] at h4; exact absurd h4 (by decide)
      · intro h5; rw [upd_self] at h5; exact absurd h5 (by decide)
      · intro _; right; right; left; rw [upd_self]
      · intro _ _; exact c4 hs
    · refine ⟨c1, c2, c3, ?_, ?_, ?_, ?_⟩
      · intro h4; rw [upd_other _ _ hij] at h4; exact c4 h4
      · intro h5; rw [upd_other _ _ hij] at h5; exact c5 h5
      · intro hwb; rw [upd_other _ _ hij]; exact c6 hwb
      · intro hwb h7; rw [upd_other _ _ hij] at h7; exact c7 hwb h7
  | destFail j hj hs =>
    intro i
    dsimp only
    obtain ⟨c1, c2, c3, c4, c5, c6, c7⟩ := hinv i
    by_cases hij : i = j
    · subst hij
      refine ⟨c1, c2, c3, ?_, ?_, ?_, ?_⟩
      · intro h4; rw [upd_self] at h4; exact absurd h4 (by decide)
      · intro h5; rw [upd_self] at h5; exact absurd h5 (by decide)
      · intro _; right; right; right; rw [upd_self]
      · intro _ _; exact c4 hs
    · refine ⟨c1, c2, c3, ?_, ?_, ?_, ?_⟩
      · intro h4; rw [upd_other _ _ hij] at h4; exact c4 h4
      · intro h5; rw [upd_other _ _ hij] at h5; exact c5 h5
      · intro hwb; rw [upd_other _ _ hij]; exact c6 hwb
      · intro hwb h7; rw [upd_other _ _ hij] at h7; exact c7 hwb h7

theorem dinv_reach {n : Nat} {s : DispatchState} (h : DReach n s) : DInv s := by
  induction h with
  | refl => exact dinv_init
  | tail _ hstep ih => exact dinv_step hstep ih

/-- C1: in any reachable state of a `coordinateTransfer` run, every batch id
has been enqueued to the destination pool at most once — the poller enqueues
only batches whose status is `buffered` and whose id is not yet in the
mutex-guarded `enqueuedToDest` set, recording the id as it enqueues — and if
every batch is terminal (`completed` or `failed`), every batch that reached
`buffered` was enqueued exactly once. -/
theorem exactly_once_dispatch (n : Nat) (s : DispatchState) (hreach : DReach n s) :
    (∀ i, s.enqueueCount i ≤ 1)
    ∧ ((∀ i, i < n → s.status i = "completed" ∨ s.status i = "failed") →
        ∀ i, i < n → s.wasBuffered i = true → s.enqueueCount i = 1) := by
  have hinv := dinv_reach hreach
  constructor
  · intro i
    rw [(hinv i).1]
    by_cases hd : s.dispatched i
    · rw [if_pos hd]
    · rw [if_neg hd]
      omega
  · intro hterm i hin hwb
    have hd := (hinv i).2.2.2.2.2.2 hwb (hterm i hin)
    rw [(hinv i).1, if_pos hd]

/-- C1 witness: a three-step run over one batch — archive it, buffer it,
dispatch it — after which its enqueue count is (at most) one. -/
theorem exactly_once_dispatch_witness :
    ({ status := upd (upd (fun _ => "pending") 0 "downloading") 0 "buffered",
       dispatched := upd (fun _ => false) 0 true,
       destQueue := [0],
       wasBuffered := upd (fun _ => false) 0 true,
       enqueueCount := upd (fun _ => 0) 0 1 } : DispatchState).enqueueCount 0 ≤ 1 := by
  refine (exactly_once_dispatch 1 _ ?_).1 0
  have d1 : DStep 1 initDispatch
      { initDispatch with status := upd initDispatch.status 0 "downloading" } :=
    DStep.srcStart 0 (by omega) rfl
  have d2 : DStep 1
      { initDispatch with status := upd initDispatch.status 0 "downloading" }
      { initDispatch with
          status := upd (upd initDispatch.status 0 "downloading") 0 "buffered",
          wasBuffered := upd initDispatch.wasBuffered 0 true } :=
    DStep.srcBuffer 0 (by omega) rfl
  have d3 : DStep 1
      { initDispatch with
          status := upd (upd initDispatch.status 0 "downloading") 0 "buffered",
          wasBuffered := upd initDispatch.wasBuffered 0 true }
      { status := upd (upd (fun _ => "pending") 0 "downloading") 0 "buffered",
        dispatched := upd (fun _ => false) 0 true,
        destQueue := [0],
        wasBuffered := upd (fun _ => false) 0 true,
        enqueueCount := upd (fun _ => 0) 0 1 } :=
    DStep.pollDispatch 0 (by omega) rfl rfl
  exact Relation.ReflTransGen.tail
    (Relation.ReflTransGen.tail (Relation.ReflTransGen.tail Relation.ReflTransGen.refl d1) d2) d3

end Difpipe
